import Mathlib

/-!
Shallow embedding of the datawave-cli query pipeline
(src/datawave_cli/query_interactions.py, utilities/utilities.py,
dictionary_interactions.py), with theorems checking the specification
claims against it.

Python dicts are modelled as insertion-ordered association lists; machine
integers as Nat; exceptions as Except / Option / explicit error sums.
-/

namespace Datawave

/-- Python exceptions that the modelled code can raise. -/
inductive PyErr where
  | valueError
  | runtimeError
  | attributeError
  | transportError
  | permissionError
  deriving DecidableEq, Repr

/-! ## Retry (utilities/utilities.py, class Retry)

`Retry.__call__` loops: invoke the wrapped function; on success return its
value; on an exception increment `attempts` and raise a wrapping
TimeoutError once `attempts >= tries`, or once the elapsed wall-clock time
reaches `time_limit`; otherwise sleep `delay_sec` and loop.  The operation
is modelled as a function from the attempt index (0-based) to a result,
elapsed time advances by `delay_sec` per sleep (the calls themselves are
modelled as instantaneous). -/

/-- Errors raised by the retry loop: a TimeoutError wrapping the last
underlying failure, either from exhausting the attempt budget or from
exceeding the wall-clock limit. -/
inductive RetryErr (E : Type) where
  | exhausted : E → RetryErr E
  | timedOut : E → RetryErr E
  deriving DecidableEq, Repr

/-- One pass of `Retry.__call__`s `while True` loop, returning the result
together with the total number of invocations of the wrapped operation.
`tries` is the attempt budget, `timeLimit` the optional wall-clock bound in
seconds (`none` when `time_limit_min` was falsy), `delaySec` the sleep
between attempts, `attempts` the failures so far and `elapsed` the seconds
since the first attempt. -/
def retryLoop {E A : Type} (op : Nat → Except E A) (tries : Nat)
    (timeLimit : Option Nat) (delaySec : Nat)
    (attempts : Nat) (elapsed : Nat) : Except (RetryErr E) A × Nat :=
  match op attempts with
  | .ok a => (.ok a, 1)
  | .error e =>
    if _h : tries ≤ attempts + 1 then (.error (.exhausted e), 1)
    else
      match timeLimit with
      | some t =>
        if t ≠ 0 ∧ t ≤ elapsed then (.error (.timedOut e), 1)
        else
          let r := retryLoop op tries (some t) delaySec (attempts + 1) (elapsed + delaySec)
          (r.1, r.2 + 1)
      | none =>
        let r := retryLoop op tries none delaySec (attempts + 1) (elapsed + delaySec)
        (r.1, r.2 + 1)
termination_by tries - attempts
decreasing_by
  all_goals omega

/-- `Retry` applied to an operation with attempt budget `tries`, zero
delay and the default ten-minute wall-clock bound, starting from zero
attempts and zero elapsed time. -/
def retryRun {E A : Type} (op : Nat → Except E A) (tries : Nat) : Except (RetryErr E) A × Nat :=
  retryLoop op tries (some 600) 0 0 0

/-! ## QueryParams and QueryConnection (query_interactions.py)

`QueryConnection` carries a certificate handle, the query parameters, a
running `results_count` (0 at construction), a `quuid` session identifier
(the class attribute default is `None`; it is assigned by `__enter__` on a
200 create response) and an `open` flag.  `open` is *not* initialised by
`__init__`: reading it before `__enter__` has run raises AttributeError,
so it is modelled as `Option Bool`, `none` standing for the unset
attribute. -/

/-- `QueryParams` dataclass: query text, authorization labels, display
name, visibility, page size and date bounds, with the source defaults. -/
structure QueryParams where
  query_name : String
  query : String
  auths : String
  column_visibility : String := "N/A"
  page_size : Nat := 5
  begin_date : String := "19700101"
  end_date : String := "20990101"
  deriving DecidableEq, Repr

/-- The certificate argument: either a single certificate path or a
(cert, key) pair. -/
inductive CertHandle where
  | single : String → CertHandle
  | pair : String → String → CertHandle
  deriving DecidableEq, Repr

/-- `cert[0] if isinstance(cert, tuple) else cert` from `save_qc`. -/
def certPrimary : CertHandle → String
  | .single c => c
  | .pair c _ => c

/-- The mutable state of a `QueryConnection`. -/
structure QCState where
  results_count : Nat
  openFlag : Option Bool
  quuid : Option String
  deriving DecidableEq, Repr

/-- The state right after `__init__`: zero results, `open` attribute not
yet set, no session identifier. -/
def initQC : QCState := { results_count := 0, openFlag := none, quuid := none }

/-- A response delivered by the transport to a `next.json` request:
HTTP status plus the ReturnedEvents count the body reports. -/
structure NextResp where
  status : Nat
  returnedEvents : Nat
  deriving DecidableEq, Repr

/-- Outcome of one `__next__` call. -/
inductive NextOutcome where
  | page : QCState → NextOutcome
  | stopIteration : QCState → NextOutcome
  | err : PyErr → NextOutcome
  deriving DecidableEq, Repr

/-- `QueryConnection.__next__`: building `next_endpoint` raises ValueError
when `quuid` is unset; otherwise, given the transport response, a 200
status adds the reported `ReturnedEvents` to `results_count` and yields
the page, and any other status raises StopIteration (the normal
end-of-iteration signal, which a for-loop absorbs). -/
def queryNext (s : QCState) (resp : NextResp) : NextOutcome :=
  match s.quuid with
  | none => .err .valueError
  | some _ =>
    if resp.status = 200 then
      .page { s with results_count := s.results_count + resp.returnedEvents }
    else
      .stopIteration s

/-- `QueryConnection.__iter__`: raises if the query has not been started.
Reading the unset `open` attribute raises AttributeError; a set-but-false
`open` raises RuntimeError. -/
def queryIter (s : QCState) : Except PyErr QCState :=
  match s.openFlag with
  | none => .error .attributeError
  | some false => .error .runtimeError
  | some true => .ok s

/-- A for-loop over the connection: repeatedly call `__next__` with the
successive transport responses, stopping normally on StopIteration and
propagating any other exception. The response list models what the server
would answer to successive `next.json` calls. -/
def runPages (s : QCState) : List NextResp → Except PyErr QCState
  | [] => .ok s
  | r :: rs =>
    match queryNext s r with
    | .page s2 => runPages s2 rs
    | .stopIteration s2 => .ok s2
    | .err e => .error e

/-- Sum of the ReturnedEvents counts of a list of responses. -/
def sumReturned (rs : List NextResp) : Nat :=
  rs.foldr (fun r acc => r.returnedEvents + acc) 0

/-- What the transport did on the `close.json` request issued by
`__exit__`: either it returned a response with some status, or the call
itself raised a transport exception. -/
inductive CloseOutcome where
  | responded : Nat → CloseOutcome
  | transportError : CloseOutcome
  deriving DecidableEq, Repr

/-- `QueryConnection.__exit__`: building `close_endpoint` raises
ValueError when `quuid` is unset.  Otherwise `requests.get` is issued with
no try/except around it: if the transport raises, the exception propagates
and the trailing `self.open = False` assignment never runs; if a response
comes back its status is ignored and `open` is set to false. -/
def queryExit (s : QCState) (o : CloseOutcome) : Except PyErr QCState :=
  match s.quuid with
  | none => .error .valueError
  | some _ =>
    match o with
    | .responded _ => .ok { s with openFlag := some false }
    | .transportError => .error .transportError

/-! ## parse_results / filter_results (query_interactions.py)

A raw page is a dict with an `Events` list; each event has a `Fields`
list; each field has a `name` and a `Value.value`.  Field values are
treated as opaque strings.  Python dicts are modelled as
insertion-ordered association lists. -/

/-- One entry of an event `Fields` list: its `name` and `Value.value`. -/
structure RawField where
  name : String
  value : String
  deriving DecidableEq, Repr

/-- A raw event is its list of fields, in response order. -/
abbrev RawEvent := List RawField

/-- The parts of the `next.json` body that `parse_results` and `__next__`
read: the `Events` array and the `ReturnedEvents` count. -/
structure RawPage where
  events : List RawEvent
  returnedEvents : Nat
  deriving DecidableEq, Repr

/-- A normalized field value: a scalar for a field seen once, a list for
a repeated field. -/
inductive FieldVal where
  | scalar : String → FieldVal
  | vlist : List String → FieldVal
  deriving DecidableEq, Repr

/-- A normalized record: insertion-ordered mapping from field name to
value. -/
abbrev Record := List (String × FieldVal)

/-- Dict lookup on an association list (first binding wins; the lists
built here have unique keys). -/
def lookupA {α : Type} : List (String × α) → String → Option α
  | [], _ => none
  | (k, v) :: rest, key => if k = key then some v else lookupA rest key

/-- The keys of an association-list dict, in insertion order. -/
def keysOf {α : Type} (r : List (String × α)) : List String :=
  r.map Prod.fst

/-- `defaultdict(list)` append: `d[k].append(v)` extends the existing
entry in place, or inserts a new key at the end. -/
def dictAppend (d : List (String × List String)) (k v : String) :
    List (String × List String) :=
  match d with
  | [] => [(k, [v])]
  | (k2, vs) :: rest =>
    if k2 = k then (k2, vs ++ [v]) :: rest else (k2, vs) :: dictAppend rest k v

/-- The inner loop of `parse_results`: fold the fields of one event into
the `event_data` defaultdict. -/
def groupFieldsAux (d : List (String × List String)) : List RawField → List (String × List String)
  | [] => d
  | f :: rest => groupFieldsAux (dictAppend d f.name f.value) rest

/-- `event_data` after the field loop, starting from the empty dict. -/
def groupFields (fields : List RawField) : List (String × List String) :=
  groupFieldsAux [] fields

/-- The comprehension `values[0] if len(values) == 1 else values`. -/
def collapse (vs : List String) : FieldVal :=
  match vs with
  | [v] => .scalar v
  | _ => .vlist vs

/-- `parse_results` applied to one event: group field values by name,
then collapse single-element lists to scalars. -/
def parseEvent (e : RawEvent) : Record :=
  (groupFields e).map (fun p => (p.1, collapse p.2))

/-- `parse_results`: one normalized record per raw event, in order. -/
def parse_results (p : RawPage) : List Record :=
  p.events.map parseEvent

/-- The values of field `k` inside one raw event, in order of
occurrence. -/
def occurrences (k : String) (e : RawEvent) : List String :=
  (e.filter (fun f => f.name = k)).map RawField.value

/-- First-occurrence order of a list of names (how a defaultdict orders
its keys as they are first inserted). -/
def firstOccurrences (acc : List String) : List String → List String
  | [] => acc
  | n :: rest => firstOccurrences (if acc.contains n then acc else acc ++ [n]) rest

/-- The error `filter_results` exits with: the requested keys found in no
record of the dataset, in request order. -/
structure FilterErr where
  missingKeys : List String
  deriving DecidableEq, Repr

/-- Python dict-comprehension key order: duplicates keep their first
position (the rebound value is the same for equal keys here). -/
def dedupKeys (ks : List String) : List String :=
  firstOccurrences [] ks

/-- Python `str.split` with a one-character separator, over the character
list: splitting the empty string yields one empty part. -/
def splitChars (sep : Char) : List Char → List (List Char)
  | [] => [[]]
  | c :: rest =>
    let r := splitChars sep rest
    if c = sep then [] :: r
    else
      match r with
      | h :: t => (c :: h) :: t
      | [] => [[c]]

/-- `filter_on.split(",")`. -/
def splitCommas (s : String) : List String :=
  (splitChars ',' s.toList).map String.mk

/-- `filter_results`: `None` filter returns the input unchanged; else
split the filter string on commas, collect the keys missing from every
record, exit with an error naming them if any, and otherwise project each
record to the requested keys with `"Not Found"` for a key that record
lacks. -/
def filter_results (results_in : List Record) (filter_on : Option String) :
    Except FilterErr (List Record) :=
  match filter_on with
  | none => .ok results_in
  | some fs =>
    let keys := splitCommas fs
    let not_found := keys.filter (fun k => results_in.all (fun ev => (lookupA ev k).isNone))
    if not_found.isEmpty then
      .ok (results_in.map (fun ev =>
        (dedupKeys keys).map (fun k => (k, (lookupA ev k).getD (.scalar "Not Found")))))
    else
      .error ⟨not_found⟩

/-! ## pathlib fragments

`save_qc` uses `Path(cert).stem`; `save_query_fields` uses
`Path(filename).with_stem(stem + "_old")`.  `Path.name` is the last
path component; `stem`/`suffix` split the name at its last dot, except
when that dot is the first or last character of the name. -/

/-- Index of the last occurrence of a dot in a character list. -/
def lastDotIdx : List Char → Option Nat
  | [] => none
  | c :: rest =>
    match lastDotIdx rest with
    | some i => some (i + 1)
    | none => if c = '.' then some 0 else none

/-- `Path(p).name`: the final path component. -/
def pathName (p : String) : String :=
  (p.splitOn "/").getLastD ""

/-- The characters of a name before its last suffix: the split is at the
last dot, unless that dot is the first or the last character. -/
def stemChars (cs : List Char) : List Char :=
  match lastDotIdx cs with
  | some i => if 0 < i ∧ i + 1 < cs.length then cs.take i else cs
  | none => cs

/-- The characters of a name from its last suffix dot on, when one
counts. -/
def suffixChars (cs : List Char) : List Char :=
  match lastDotIdx cs with
  | some i => if 0 < i ∧ i + 1 < cs.length then cs.drop i else []
  | none => []

/-- `Path(p).stem`: the name without its last suffix; a dot at the start
or at the very end of the name does not begin a suffix. -/
def pathStem (p : String) : String :=
  String.mk (stemChars (pathName p).toList)

/-- `Path(p).suffix`: the last extension of the name, dots at the
extremes excluded. -/
def pathSuffix (p : String) : String :=
  String.mk (suffixChars (pathName p).toList)

/-- `Path(p).with_stem(s)`: the same parent and suffix with the stem
replaced.  The parent prefix is the path with the chars of its name
removed from the end. -/
def withStem (p : String) (s : String) : String :=
  let name := pathName p
  String.mk (p.toList.take (p.toList.length - name.length)) ++ s ++ pathSuffix p

/-! ## The persisted artifact of save_qc (query_interactions.py)

`save_qc` collects the parsed events, derives a metadata dict
(query text, cumulative `results_count`, auths, certificate stem and the
current milliseconds since epoch) and `json.dump`s
a dict with keys `metadata` and `events`. -/

/-- The metadata dict built by `save_qc`, field for field. -/
structure QueryMetadata where
  query : String
  returnedEvents : Nat
  auths : String
  certStem : String
  timestampMs : Nat
  deriving DecidableEq, Repr

/-- The single structured artifact `save_qc` writes. -/
structure Artifact where
  metadata : QueryMetadata
  events : List Record
  deriving DecidableEq, Repr

/-- The artifact `save_qc` builds from a finished connection state:
`nowMs` is the millisecond clock reading at the call. -/
def save_qc_artifact (qp : QueryParams) (results_count : Nat) (cert : CertHandle)
    (events : List Record) (nowMs : Nat) : Artifact :=
  { metadata :=
      { query := qp.query
        returnedEvents := results_count
        auths := qp.auths
        certStem := pathStem (certPrimary cert)
        timestampMs := nowMs }
    events := events }

/-- The JSON values this artifact serializes to (all numbers written here
are nonnegative integers). -/
inductive Json where
  | str : String → Json
  | num : Nat → Json
  | arr : List Json → Json
  | obj : List (String × Json) → Json

/-- Encode a normalized field value. -/
def encodeFieldVal : FieldVal → Json
  | .scalar s => .str s
  | .vlist vs => .arr (vs.map .str)

/-- Decode a normalized field value. -/
def decodeStrList : List Json → Option (List String)
  | [] => some []
  | .str s :: rest => (decodeStrList rest).map (fun l => s :: l)
  | _ => none

/-- Inverse of `encodeFieldVal`. -/
def decodeFieldVal : Json → Option FieldVal
  | .str s => some (.scalar s)
  | .arr js => (decodeStrList js).map .vlist
  | _ => none

/-- Encode a record as a JSON object, key order preserved. -/
def encodeRecord (r : Record) : Json :=
  .obj (r.map (fun p => (p.1, encodeFieldVal p.2)))

/-- Decode the members of a JSON object back into a record. -/
def decodePairs : List (String × Json) → Option Record
  | [] => some []
  | (k, j) :: rest =>
    match decodeFieldVal j, decodePairs rest with
    | some v, some r => some ((k, v) :: r)
    | _, _ => none

/-- Inverse of `encodeRecord`. -/
def decodeRecord : Json → Option Record
  | .obj ps => decodePairs ps
  | _ => none

/-- Encode the events list. -/
def encodeEvents (evs : List Record) : Json :=
  .arr (evs.map encodeRecord)

/-- Decode a list of records. -/
def decodeRecordList : List Json → Option (List Record)
  | [] => some []
  | j :: rest =>
    match decodeRecord j, decodeRecordList rest with
    | some r, some l => some (r :: l)
    | _, _ => none

/-- Encode the metadata dict with the exact keys `save_qc` uses. -/
def encodeMetadata (m : QueryMetadata) : Json :=
  .obj [("Query", .str m.query),
        ("Returned Events", .num m.returnedEvents),
        ("Auths", .str m.auths),
        ("Cert", .str m.certStem),
        ("Unix Timestamp(ms)", .num m.timestampMs)]

/-- Inverse of `encodeMetadata`. -/
def decodeMetadata : Json → Option QueryMetadata
  | .obj [("Query", .str q),
          ("Returned Events", .num re),
          ("Auths", .str au),
          ("Cert", .str ce),
          ("Unix Timestamp(ms)", .num ts)] =>
    some { query := q, returnedEvents := re, auths := au, certStem := ce, timestampMs := ts }
  | _ => none

/-- The document `json.dump` writes: metadata then events. -/
def encodeArtifact (a : Artifact) : Json :=
  .obj [("metadata", encodeMetadata a.metadata), ("events", encodeEvents a.events)]

/-- Reading the written file back. -/
def decodeArtifact : Json → Option Artifact
  | .obj [("metadata", mj), ("events", .arr ejs)] =>
    match decodeMetadata mj, decodeRecordList ejs with
    | some m, some evs => some { metadata := m, events := evs }
    | _, _ => none
  | _ => none

/-! ## save_query_fields rotation (query_interactions.py)

Before opening the connection, `save_query_fields` checks whether the
output path already exists; if so it renames it with `_old` appended to
the stem, and a PermissionError from that rename is logged critically and
re-raised, aborting before anything is written.  The filesystem is
modelled as an association list from path to file content; the rename
outcome is an input of the model. -/

/-- A flat filesystem: path to content, insertion ordered. -/
abbrev FS := List (String × String)

/-- Write (create or overwrite) a file. -/
def setFile (fs : FS) (p c : String) : FS :=
  match fs with
  | [] => [(p, c)]
  | (q, d) :: rest => if q = p then (q, c) :: rest else (q, d) :: setFile rest p c

/-- Remove a path (what a successful rename does to the source). -/
def removeFile (fs : FS) (p : String) : FS :=
  fs.filter (fun e => e.1 ≠ p)

/-- What the OS did on the rename attempt. -/
inductive RenameOutcome where
  | ok
  | permissionError
  deriving DecidableEq, Repr

/-- The existing-file rotation at the top of `save_query_fields`: nothing
happens if the target does not exist; otherwise the file is renamed to
`with_stem(stem + "_old")`, and a PermissionError is re-raised. -/
def rotateExisting (fs : FS) (target : String) (ro : RenameOutcome) : Except PyErr FS :=
  match lookupA fs target with
  | none => .ok fs
  | some content =>
    match ro with
    | .permissionError => .error .permissionError
    | .ok => .ok (setFile (removeFile fs target) (withStem target (pathStem target ++ "_old")) content)

/-- `save_query_fields` as far as the filesystem is concerned: rotate the
existing output file, then (query execution aside) write the new artifact
to the target path.  The pair returned is the Python exception, if one
propagated, together with the filesystem state when control left the
function. -/
def save_query_fields_fs (fs : FS) (target : String) (ro : RenameOutcome)
    (artifact : String) : Option PyErr × FS :=
  match rotateExisting fs target ro with
  | .error e => (some e, fs)
  | .ok fs2 => (none, setFile fs2 target artifact)

/-! ## format_dictionary (dictionary_interactions.py)

`format_dictionary` renders a list of field dicts as a fixed-width table:
for an empty list it returns `(None, None, [None])`; otherwise it takes
the key order of the first dict, computes per-column widths as the larger
of the longest rendered value and the key name, and emits a padded header,
a dashed separator, and one padded row per dict, each cell followed by a
bar.  Values are modelled as their rendered strings (the `str(...)` the
source applies). -/

/-- A dictionary-endpoint record: rendered field name/value pairs. -/
abbrev DRecord := List (String × String)

/-- Python `f"{s:{w}}"`: left-justify to width `w` with spaces (a longer
string is not truncated). -/
def padTo (s : String) (w : Nat) : String :=
  s ++ String.mk (List.replicate (w - s.length) ' ')

/-- `max_lengths[key]`: the longest rendered value for `key` over all
records, or the key name length if that is larger.  A record without the
key contributes its looked-up default; the source would raise KeyError
there, and the theorems assume every record carries the keys of the
first. -/
def colWidth (fields : List DRecord) (k : String) : Nat :=
  max ((fields.map (fun f => ((lookupA f k).getD "").length)).foldr max 0) k.length

/-- The header line: each key padded to its column width, bar-separated. -/
def headerLine (fields : List DRecord) (ks : List String) : String :=
  String.join (ks.map (fun k => padTo k (colWidth fields k) ++ "|"))

/-- The separator line: dashes to each column width, bar-separated. -/
def rowSplitLine (fields : List DRecord) (ks : List String) : String :=
  String.join (ks.map (fun k => String.mk (List.replicate (colWidth fields k) '-') ++ "|"))

/-- One body row: the record values in first-record key order, padded. -/
def rowLine (fields : List DRecord) (ks : List String) (f : DRecord) : String :=
  String.join (ks.map (fun k => padTo ((lookupA f k).getD "") (colWidth fields k) ++ "|"))

/-- `format_dictionary`: `(None, None, [None])` on an empty list, else
the header, separator and rows built over the first record key order. -/
def format_dictionary (fields : List DRecord) :
    Option String × Option String × List (Option String) :=
  match fields with
  | [] => (none, none, [none])
  | f0 :: _ =>
    let ks := keysOf f0
    (some (headerLine fields ks),
     some (rowSplitLine fields ks),
     fields.map (fun f => some (rowLine fields ks f)))

/-- A concrete event with a repeated field, for evaluating the parse
theorems. -/
def eventAB : RawEvent := [⟨"A", "1"⟩, ⟨"B", "x"⟩, ⟨"A", "2"⟩]

/-- A page whose second event presents its fields in the opposite order
from the first event. -/
def pageSwapped : RawPage :=
  { events := [[⟨"a", "1"⟩, ⟨"b", "2"⟩], [⟨"b", "3"⟩, ⟨"a", "4"⟩]]
    returnedEvents := 2 }

/-! ## Lemmas about the event grouping -/

theorem lookupA_dictAppend_self (d : List (String × List String)) (k v : String) :
    lookupA (dictAppend d k v) k = some ((lookupA d k).getD [] ++ [v]) := by
  induction d with
  | nil => simp [dictAppend, lookupA]
  | cons p rest ih =>
    obtain ⟨k2, vs⟩ := p
    by_cases h : k2 = k
    · subst h
      simp [dictAppend, lookupA]
    · simp [dictAppend, lookupA, h, ih]

theorem lookupA_dictAppend_ne (d : List (String × List String)) (k v k2 : String)
    (h : k2 ≠ k) : lookupA (dictAppend d k v) k2 = lookupA d k2 := by
  induction d with
  | nil =>
    simp only [dictAppend, lookupA]
    rw [if_neg (fun hh => h hh.symm)]
  | cons p rest ih =>
    obtain ⟨k3, vs⟩ := p
    by_cases h3 : k3 = k
    · subst h3
      simp only [dictAppend, if_pos rfl, lookupA]
      rw [if_neg (fun hh => h hh.symm), if_neg (fun hh => h hh.symm)]
    · simp only [dictAppend, if_neg h3, lookupA]
      by_cases h32 : k3 = k2
      · rw [if_pos h32, if_pos h32]
      · rw [if_neg h32, if_neg h32, ih]

theorem lookupA_groupFieldsAux (fs : List RawField) (d : List (String × List String))
    (k : String) :
    lookupA (groupFieldsAux d fs) k =
      if occurrences k fs = [] then lookupA d k
      else some ((lookupA d k).getD [] ++ occurrences k fs) := by
  induction fs generalizing d with
  | nil => simp [groupFieldsAux, occurrences]
  | cons f rest ih =>
    by_cases hn : f.name = k
    · have hocc : occurrences k (f :: rest) = f.value :: occurrences k rest := by
        simp [occurrences, List.filter, hn]
      rw [groupFieldsAux, ih, hocc, hn]
      by_cases hr : occurrences k rest = []
      · simp [hr, lookupA_dictAppend_self d k f.value]
      · simp only [hr, if_neg (List.cons_ne_nil f.value (occurrences k rest)),
          lookupA_dictAppend_self d k f.value, Option.getD_some, if_neg hr]
        rw [List.append_assoc]
        rfl
    · have hocc : occurrences k (f :: rest) = occurrences k rest := by
        simp [occurrences, List.filter, hn]
      rw [groupFieldsAux, ih, hocc, lookupA_dictAppend_ne d f.name f.value k
        (fun hh => hn hh.symm)]

theorem lookupA_groupFields (e : RawEvent) (k : String) :
    lookupA (groupFields e) k =
      if occurrences k e = [] then none else some (occurrences k e) := by
  rw [groupFields, lookupA_groupFieldsAux]
  simp [lookupA]

theorem lookupA_map_snd {α β : Type} (r : List (String × α)) (g : α → β) (k : String) :
    lookupA (r.map (fun p => (p.1, g p.2))) k = (lookupA r k).map g := by
  induction r with
  | nil => simp [lookupA]
  | cons p rest ih =>
    by_cases h : p.1 = k
    · simp [lookupA, h]
    · simp [lookupA, h, ih]

theorem collapse_of_two_le (vs : List String) (h : 2 ≤ vs.length) :
    collapse vs = .vlist vs := by
  match vs with
  | [] => simp at h
  | [v] => simp at h
  | a :: b :: t => rfl

/-- C7: for every raw event, a field name occurring exactly once in the
event maps, in the parsed record, to its value as a scalar, and a field
name occurring two or more times maps to the list of its values in order
of occurrence. -/
theorem parse_results_multiplicity (e : RawEvent) (k : String) :
    (∀ v, occurrences k e = [v] →
      lookupA (parseEvent e) k = some (.scalar v))
  ∧ (2 ≤ (occurrences k e).length →
      lookupA (parseEvent e) k = some (.vlist (occurrences k e))) := by
  have hmap : lookupA (parseEvent e) k = (lookupA (groupFields e) k).map collapse :=
    lookupA_map_snd (groupFields e) collapse k
  constructor
  · intro v hv
    rw [hmap, lookupA_groupFields, hv]
    simp [collapse]
  · intro h2
    have hne : occurrences k e ≠ [] := by
      intro h
      rw [h] at h2
      simp at h2
    rw [hmap, lookupA_groupFields, if_neg hne]
    simp [collapse_of_two_le _ h2]

/-- Evaluation of the C7 theorem on a concrete event with a repeated
field A and a single field B. -/
theorem parse_results_multiplicity_witness :
    lookupA (parseEvent eventAB) "A" = some (.vlist ["1", "2"])
  ∧ lookupA (parseEvent eventAB) "B" = some (.scalar "x") :=
  ⟨(parse_results_multiplicity eventAB "A").2 (by decide),
   (parse_results_multiplicity eventAB "B").1 "x" (by decide)⟩

/-! ## Lemmas about key order -/

theorem keysOf_dictAppend (d : List (String × List String)) (k v : String) :
    keysOf (dictAppend d k v) =
      if (keysOf d).contains k then keysOf d else keysOf d ++ [k] := by
  induction d with
  | nil => simp [dictAppend, keysOf]
  | cons p rest ih =>
    obtain ⟨k2, vs⟩ := p
    by_cases h : k2 = k
    · subst h
      simp [dictAppend, keysOf]
    · simp only [dictAppend, if_neg h, keysOf] at *
      simp only [List.map_cons, List.contains_cons]
      have hbeq : (k == k2) = false := by
        simp
        exact fun hh => h hh.symm
      rw [hbeq]
      simp only [Bool.false_or]
      by_cases hc : ((rest.map Prod.fst).contains k) = true
      · rw [if_pos hc] at ih
        rw [if_pos hc, ih]
      · rw [if_neg hc] at ih
        rw [if_neg hc, ih]
        rfl

theorem keysOf_groupFieldsAux (fs : List RawField) (d : List (String × List String)) :
    keysOf (groupFieldsAux d fs) = firstOccurrences (keysOf d) (fs.map RawField.name) := by
  induction fs generalizing d with
  | nil => simp [groupFieldsAux, firstOccurrences]
  | cons f rest ih =>
    rw [groupFieldsAux, ih, List.map_cons, firstOccurrences, keysOf_dictAppend]

/-- The keys of a parsed record, in order. -/
theorem keysOf_parseEvent (e : RawEvent) :
    keysOf (parseEvent e) = firstOccurrences [] (e.map RawField.name) := by
  have h1 : keysOf (parseEvent e) = keysOf (groupFields e) := by
    simp [parseEvent, keysOf, List.map_map]
  rw [h1, groupFields, keysOf_groupFieldsAux]
  rfl

/-- C3 counterexample: on a page whose second event lists the same two
fields in the opposite order, the second parsed record does not follow
the key order of the first record, refuting the claim that records are
flattened by the first record key order. -/
theorem parse_results_order_counterexample :
    ¬ (∀ r ∈ parse_results pageSwapped,
        keysOf r = (keysOf ((parse_results pageSwapped).headD [])).filter
          (fun k => (keysOf r).contains k)) := by
  decide

/-- C3 amended: each parsed record of a page lists its fields in the
first-occurrence order of the field names of its own raw event (not in
the key order of the first record of the page); no absent key is filled
in. -/
theorem parse_results_order (p : RawPage) (e : RawEvent) (he : e ∈ p.events) :
    parseEvent e ∈ parse_results p
  ∧ keysOf (parseEvent e) = firstOccurrences [] (e.map RawField.name) :=
  ⟨List.mem_map_of_mem parseEvent he, keysOf_parseEvent e⟩

/-- Evaluation of the amended C3 theorem on the counterexample page: the
second record keeps its own field order b, a. -/
theorem parse_results_order_witness :
    parseEvent [⟨"b", "3"⟩, ⟨"a", "4"⟩] ∈ parse_results pageSwapped
  ∧ keysOf (parseEvent [⟨"b", "3"⟩, ⟨"a", "4"⟩]) =
      firstOccurrences [] (["b", "a"] : List String) :=
  parse_results_order pageSwapped [⟨"b", "3"⟩, ⟨"a", "4"⟩] (by decide)

/-! ## The iteration contract (C1) -/

theorem runPages_open (q : String) (rc : Nat) (rs : List NextResp) :
    runPages { results_count := rc, openFlag := some true, quuid := some q } rs =
      .ok { results_count := rc + sumReturned (rs.takeWhile (fun r => r.status == 200)),
            openFlag := some true, quuid := some q } := by
  induction rs generalizing rc with
  | nil => simp [runPages, sumReturned]
  | cons r rs ih =>
    by_cases h : r.status = 200
    · simp only [runPages, queryNext, if_pos h, ih, List.takeWhile]
      have hb : (r.status == 200) = true := by
        simp [h]
      simp [hb, sumReturned, Nat.add_assoc]
    · have hb : (r.status == 200) = false := by
        simp [h]
      simp [runPages, queryNext, if_neg h, List.takeWhile, hb, sumReturned]

/-- C1: over an open session, every 200 page response adds its reported
ReturnedEvents to results_count, a non-200 response ends the iteration
normally (no exception escapes the for-loop), and in particular two pages
reporting 3 and 2 events followed by a 500 leave results_count at 5. -/
theorem runPages_results_count :
    (∀ (q : String) (rc : Nat) (rs : List NextResp),
      runPages { results_count := rc, openFlag := some true, quuid := some q } rs =
        .ok { results_count := rc + sumReturned (rs.takeWhile (fun r => r.status == 200)),
              openFlag := some true, quuid := some q })
  ∧ runPages { results_count := 0, openFlag := some true, quuid := some "quuid" }
      [⟨200, 3⟩, ⟨200, 2⟩, ⟨500, 0⟩] =
      .ok { results_count := 5, openFlag := some true, quuid := some "quuid" } :=
  ⟨runPages_open, rfl⟩

/-! ## The retry executor (C6) -/

/-- C6: with an attempt budget of 3 and zero delay, an operation failing
twice then succeeding yields the success value after exactly 3
invocations, and an always-failing operation raises the exhaustion error
wrapping the last failure after exactly 3 invocations. -/
theorem retry_three_attempts :
    retryRun (fun n => if n < 2 then (.error "fail" : Except String Nat) else .ok 42) 3 =
      (.ok 42, 3)
  ∧ retryRun (fun _ => (.error "fail" : Except String Nat)) 3 =
      (.error (.exhausted "fail"), 3) := by
  constructor
  · simp [retryRun, retryLoop]
  · simp [retryRun, retryLoop]

/-! ## Session close behaviour (C4, C5) -/

/-- The C4 claim as stated: for every session close, an error raised by
the close call is never propagated and the open flag ends up false. -/
def closeAlwaysSwallows : Prop :=
  ∀ (s : QCState) (o : CloseOutcome), s.openFlag = some true →
    ∃ s2, queryExit s o = .ok s2 ∧ s2.openFlag = some false

/-- C4 counterexample: on an open session whose close transport call
raises, `__exit__` has no try/except, so the exception propagates and the
open flag is never set to false — the claim fails at that input. -/
theorem queryExit_error_counterexample : ¬ closeAlwaysSwallows := by
  intro h
  obtain ⟨s2, h1, _⟩ :=
    h { results_count := 0, openFlag := some true, quuid := some "quuid" }
      .transportError rfl
  simp [queryExit] at h1

/-- C4 amended: when the close call returns a response its status is
ignored, nothing propagates and the open flag is set to false; but when
the close transport call itself raises, the exception propagates to the
caller and the open flag keeps its previous value (the assignment after
the request never runs). -/
theorem queryExit_behaviour (s : QCState) (q : String) (hq : s.quuid = some q) :
    (∀ st, queryExit s (.responded st) = .ok { s with openFlag := some false })
  ∧ queryExit s .transportError = .error .transportError := by
  constructor
  · intro st
    simp [queryExit, hq]
  · simp [queryExit, hq]

/-- Evaluation of the amended C4 theorem on an open session. -/
theorem queryExit_behaviour_witness :
    (∀ st, queryExit { results_count := 5, openFlag := some true, quuid := some "quuid" }
        (.responded st) =
      .ok { results_count := 5, openFlag := some false, quuid := some "quuid" })
  ∧ queryExit { results_count := 5, openFlag := some true, quuid := some "quuid" }
      .transportError = .error .transportError :=
  queryExit_behaviour
    { results_count := 5, openFlag := some true, quuid := some "quuid" } "quuid" rfl

/-- C5 counterexample: closing a never-opened session is not safe — with
no session identifier, building `close_endpoint` raises ValueError even
though the transport would have answered. -/
theorem queryExit_unopened_counterexample :
    queryExit initQC (.responded 200) = .error PyErr.valueError := rfl

/-- C5 amended: pulling a page before open has succeeded always fails
(`__next__` raises ValueError without a session identifier, and
`__iter__` raises on the unset or false open flag); once a session
identifier exists, close may be repeated without raising as long as the
transport answers; but closing a session that was never opened raises
ValueError. -/
theorem query_lifecycle (s : QCState) (q : String) :
    (s.quuid = none → ∀ r : NextResp, queryNext s r = .err .valueError)
  ∧ (s.openFlag = none → queryIter s = .error .attributeError)
  ∧ (s.openFlag = some false → queryIter s = .error .runtimeError)
  ∧ (s.quuid = some q → ∀ st1 st2 : Nat,
      ∃ s1, queryExit s (.responded st1) = .ok s1 ∧
        queryExit s1 (.responded st2) = .ok { s1 with openFlag := some false })
  ∧ (∀ (rc : Nat) (ofl : Option Bool) (o : CloseOutcome),
      queryExit { results_count := rc, openFlag := ofl, quuid := none } o =
        .error .valueError) := by
  refine ⟨?_, ?_, ?_, ?_, ?_⟩
  · intro h r
    simp [queryNext, h]
  · intro h
    simp [queryIter, h]
  · intro h
    simp [queryIter, h]
  · intro h st1 st2
    refine ⟨{ s with openFlag := some false }, ?_, ?_⟩
    · simp [queryExit, h]
    · simp [queryExit, h]
  · intro rc ofl o
    simp [queryExit]

/-- Evaluation of the amended C5 theorem on a freshly constructed
session. -/
theorem query_lifecycle_witness :
    queryNext initQC ⟨200, 3⟩ = .err .valueError
  ∧ queryIter initQC = .error .attributeError
  ∧ queryExit initQC (.responded 200) = .error .valueError := by
  refine ⟨(query_lifecycle initQC "quuid").1 rfl ⟨200, 3⟩,
    (query_lifecycle initQC "quuid").2.1 rfl,
    (query_lifecycle initQC "quuid").2.2.2.2 0 none (.responded 200)⟩

/-! ## Filtering (C2) -/

theorem mem_firstOccurrences (l : List String) (acc : List String) (k : String) :
    k ∈ firstOccurrences acc l ↔ k ∈ acc ∨ k ∈ l := by
  induction l generalizing acc with
  | nil => simp [firstOccurrences]
  | cons n rest ih =>
    rw [firstOccurrences, ih]
    by_cases h : acc.contains n
    · have hn : n ∈ acc := by
        simpa using h
      simp only [if_pos h, List.mem_cons]
      constructor
      · rintro (ha | hr)
        · exact Or.inl ha
        · exact Or.inr (Or.inr hr)
      · rintro (ha | hn2 | hr)
        · exact Or.inl ha
        · exact Or.inl (hn2 ▸ hn)
        · exact Or.inr hr
    · simp only [if_neg h, List.mem_append, List.mem_singleton, List.mem_cons]
      tauto

theorem lookupA_map_keys {α : Type} (ks : List String) (g : String → α) (k0 : String) :
    lookupA (ks.map (fun k => (k, g k))) k0 = if k0 ∈ ks then some (g k0) else none := by
  induction ks with
  | nil => simp [lookupA]
  | cons k rest ih =>
    by_cases h : k = k0
    · subst h
      simp [lookupA]
    · have h2 : ¬ k0 = k := fun hh => h hh.symm
      simp [lookupA, h, ih, h2]

/-- C2: on a non-empty comma-separated key string, filtering fails with
an error naming exactly the requested keys that occur in no record of the
dataset whenever there is such a key; otherwise it succeeds and maps each
input record, in order, to a record whose keys are exactly the requested
keys (first-occurrence order, duplicates collapsed) with the sentinel
scalar `"Not Found"` for a requested key that record individually
lacks. -/
theorem filter_results_contract (records : List Record) (fs : String) :
    ((∃ k, k ∈ splitCommas fs ∧ ∀ ev ∈ records, lookupA ev k = none) →
      ∃ missing, filter_results records (some fs) = .error ⟨missing⟩ ∧
        missing ≠ [] ∧
        ∀ k ∈ missing, k ∈ splitCommas fs ∧ ∀ ev ∈ records, lookupA ev k = none)
  ∧ ((∀ k ∈ splitCommas fs, ∃ ev ∈ records, lookupA ev k ≠ none) →
      ∃ out, filter_results records (some fs) = .ok out ∧
        out.length = records.length ∧
        (∀ k, k ∈ dedupKeys (splitCommas fs) ↔ k ∈ splitCommas fs) ∧
        ∀ (i : Nat) (hi : i < records.length) (ho : i < out.length),
          keysOf (out.get ⟨i, ho⟩) = dedupKeys (splitCommas fs) ∧
          ∀ k ∈ dedupKeys (splitCommas fs),
            lookupA (out.get ⟨i, ho⟩) k =
              some ((lookupA (records.get ⟨i, hi⟩) k).getD (.scalar "Not Found"))) := by
  constructor
  · rintro ⟨k, hk, hnone⟩
    have hmem : k ∈ (splitCommas fs).filter
        (fun k => records.all (fun ev => (lookupA ev k).isNone)) := by
      rw [List.mem_filter]
      refine ⟨hk, ?_⟩
      rw [List.all_eq_true]
      intro ev hev
      rw [Option.isNone_iff_eq_none]
      exact hnone ev hev
    have hne : ((splitCommas fs).filter
        (fun k => records.all (fun ev => (lookupA ev k).isNone))).isEmpty = false := by
      rw [List.isEmpty_eq_false_iff_exists_mem]
      exact ⟨k, hmem⟩
    refine ⟨(splitCommas fs).filter
        (fun k => records.all (fun ev => (lookupA ev k).isNone)), ?_, ?_, ?_⟩
    · simp only [filter_results, hne]
      rfl
    · intro habs
      rw [habs] at hmem
      exact List.not_mem_nil k hmem
    · intro k2 hk2
      rw [List.mem_filter] at hk2
      refine ⟨hk2.1, ?_⟩
      intro ev hev
      have := (List.all_eq_true).1 hk2.2 ev hev
      exact Option.isNone_iff_eq_none.1 this
  · intro hsome
    have hempty : ((splitCommas fs).filter
        (fun k => records.all (fun ev => (lookupA ev k).isNone))).isEmpty = true := by
      rw [List.isEmpty_iff]
      rw [List.filter_eq_nil_iff]
      intro k hk
      obtain ⟨ev, hev, hne⟩ := hsome k hk
      simp only [List.all_eq_true, Bool.not_eq_true]
      intro hall
      have := hall ev hev
      rw [Option.isNone_iff_eq_none] at this
      exact absurd this hne
    refine ⟨records.map (fun ev => (dedupKeys (splitCommas fs)).map
        (fun k => (k, (lookupA ev k).getD (.scalar "Not Found")))), ?_, ?_, ?_, ?_⟩
    · simp only [filter_results, hempty]
      rfl
    · simp
    · intro k
      rw [dedupKeys, mem_firstOccurrences]
      simp
    · intro i hi ho
      constructor
      · rw [List.get_map]
        simp [keysOf, List.map_map, Function.comp_def]
      · intro k hk
        rw [List.get_map, lookupA_map_keys, if_pos hk]

/-- Evaluation of the C2 theorem: with records carrying field1 only in
the first record, filtering on field3 fails naming field3, and filtering
on field1 succeeds with Not Found filled into the second record. -/
theorem filter_results_contract_witness :
    (∃ missing,
      filter_results [[("field1", .scalar "v1")], [("field2", .scalar "v2")]]
        (some "field3") = .error ⟨missing⟩ ∧ missing ≠ [] ∧
      ∀ k ∈ missing, k ∈ splitCommas "field3" ∧
        ∀ ev ∈ [[("field1", FieldVal.scalar "v1")], [("field2", FieldVal.scalar "v2")]],
          lookupA ev k = none)
  ∧ (∃ out,
      filter_results [[("field1", .scalar "v1")], [("field2", .scalar "v2")]]
        (some "field1") = .ok out ∧
      out.length = 2 ∧
      (∀ k, k ∈ dedupKeys (splitCommas "field1") ↔ k ∈ splitCommas "field1") ∧
      ∀ (i : Nat) (hi : i < ([[("field1", FieldVal.scalar "v1")],
          [("field2", FieldVal.scalar "v2")]] : List Record).length) (ho : i < out.length),
        keysOf (out.get ⟨i, ho⟩) = dedupKeys (splitCommas "field1") ∧
        ∀ k ∈ dedupKeys (splitCommas "field1"),
          lookupA (out.get ⟨i, ho⟩) k =
            some ((lookupA (([[("field1", FieldVal.scalar "v1")],
              [("field2", FieldVal.scalar "v2")]] : List Record).get ⟨i, hi⟩) k).getD
                (.scalar "Not Found"))) :=
  ⟨(filter_results_contract [[("field1", .scalar "v1")], [("field2", .scalar "v2")]]
      "field3").1 ⟨"field3", by decide, by decide⟩,
   (filter_results_contract [[("field1", .scalar "v1")], [("field2", .scalar "v2")]]
      "field1").2 (by decide)⟩

/-! ## Persisted artifact round trip (C8) -/

theorem decodeStrList_encode (vs : List String) :
    decodeStrList (vs.map .str) = some vs := by
  induction vs with
  | nil => rfl
  | cons v rest ih => simp [decodeStrList, ih]

theorem decodeFieldVal_encode (v : FieldVal) :
    decodeFieldVal (encodeFieldVal v) = some v := by
  cases v with
  | scalar s => rfl
  | vlist vs => simp [encodeFieldVal, decodeFieldVal, decodeStrList_encode]

theorem decodePairs_encode (r : Record) :
    decodePairs (r.map (fun p => (p.1, encodeFieldVal p.2))) = some r := by
  induction r with
  | nil => rfl
  | cons p rest ih => simp [decodePairs, decodeFieldVal_encode, ih]

theorem decodeRecord_encode (r : Record) :
    decodeRecord (encodeRecord r) = some r := by
  simp [encodeRecord, decodeRecord, decodePairs_encode]

theorem decodeRecordList_encode (evs : List Record) :
    decodeRecordList (evs.map encodeRecord) = some evs := by
  induction evs with
  | nil => rfl
  | cons r rest ih => simp [decodeRecordList, decodeRecord_encode, ih]

theorem decodeMetadata_encode (m : QueryMetadata) :
    decodeMetadata (encodeMetadata m) = some m := rfl

theorem decodeArtifact_encode (a : Artifact) :
    decodeArtifact (encodeArtifact a) = some a := by
  simp [encodeArtifact, decodeArtifact, encodeEvents, decodeMetadata_encode,
    decodeRecordList_encode]

/-- C8: the artifact `save_qc` persists (decodeRaw false writes nothing
besides the JSON document) reads back to itself, its events component is
exactly the accumulated records, and its metadata carries the query text,
authorization set, final result count, the certificate file stem, and the
millisecond timestamp of the call (hence within five seconds of call
time). -/
theorem save_qc_round_trip (qp : QueryParams) (rc : Nat) (cert : CertHandle)
    (events : List Record) (nowMs : Nat) :
    decodeArtifact (encodeArtifact (save_qc_artifact qp rc cert events nowMs)) =
      some (save_qc_artifact qp rc cert events nowMs)
  ∧ (save_qc_artifact qp rc cert events nowMs).events = events
  ∧ (save_qc_artifact qp rc cert events nowMs).metadata.query = qp.query
  ∧ (save_qc_artifact qp rc cert events nowMs).metadata.auths = qp.auths
  ∧ (save_qc_artifact qp rc cert events nowMs).metadata.returnedEvents = rc
  ∧ (save_qc_artifact qp rc cert events nowMs).metadata.certStem =
      pathStem (certPrimary cert)
  ∧ (save_qc_artifact qp rc cert events nowMs).metadata.timestampMs = nowMs
  ∧ (save_qc_artifact qp rc cert events nowMs).metadata.timestampMs ≤ nowMs + 5000
  ∧ nowMs ≤ (save_qc_artifact qp rc cert events nowMs).metadata.timestampMs + 5000 :=
  ⟨decodeArtifact_encode _, rfl, rfl, rfl, rfl, rfl, rfl,
   Nat.le_add_right nowMs 5000, Nat.le_add_right nowMs 5000⟩

/-! ## Output rotation (C9) -/

theorem lookupA_setFile_self (fs : FS) (p c : String) :
    lookupA (setFile fs p c) p = some c := by
  induction fs with
  | nil => simp [setFile, lookupA]
  | cons e rest ih =>
    obtain ⟨q, d⟩ := e
    by_cases h : q = p
    · simp [setFile, h, lookupA]
    · simp [setFile, h, lookupA, ih]

theorem lookupA_setFile_ne (fs : FS) (p c q : String) (h : q ≠ p) :
    lookupA (setFile fs p c) q = lookupA fs q := by
  induction fs with
  | nil =>
    simp only [setFile, lookupA]
    rw [if_neg (fun hh => h hh.symm)]
  | cons e rest ih =>
    obtain ⟨q2, d⟩ := e
    by_cases h2 : q2 = p
    · subst h2
      simp only [setFile, if_pos rfl, lookupA]
      rw [if_neg (fun hh => h hh.symm), if_neg (fun hh => h hh.symm)]
    · simp only [setFile, if_neg h2, lookupA]
      by_cases h3 : q2 = q
      · rw [if_pos h3, if_pos h3]
      · rw [if_neg h3, if_neg h3, ih]

theorem stemChars_length_add_suffixChars_length (cs : List Char) :
    (stemChars cs).length + (suffixChars cs).length = cs.length := by
  unfold stemChars suffixChars
  cases h : lastDotIdx cs with
  | none => simp
  | some i =>
    by_cases hc : 0 < i ∧ i + 1 < cs.length
    · simp only [if_pos hc]
      have h1 : (cs.take i).length = min i cs.length := List.length_take i cs
      have h2 : (cs.drop i).length = cs.length - i := List.length_drop i cs
      omega
    · simp only [if_neg hc]
      simp

theorem pathStem_length_add_pathSuffix_length (p : String) :
    (pathStem p).length + (pathSuffix p).length = (pathName p).length := by
  have h1 : (pathStem p).length = (stemChars (pathName p).toList).length := rfl
  have h2 : (pathSuffix p).length = (suffixChars (pathName p).toList).length := rfl
  have h3 : (pathName p).length = (pathName p).toList.length := rfl
  rw [h1, h2, h3, stemChars_length_add_suffixChars_length]

theorem withStem_old_length (p : String) :
    (withStem p (pathStem p ++ "_old")).length =
      (p.length - (pathName p).length) + (pathName p).length + 4 := by
  have h1 : (withStem p (pathStem p ++ "_old")).length =
      min (p.length - (pathName p).length) p.length +
        ((pathStem p).length + 4) + (pathSuffix p).length := by
    show (String.mk (p.toList.take (p.toList.length - (pathName p).length)) ++
        (pathStem p ++ "_old") ++ pathSuffix p).length = _
    rw [String.length_append, String.length_append, String.length_append]
    have h2 : (String.mk (p.toList.take (p.toList.length - (pathName p).length))).length =
        min (p.toList.length - (pathName p).length) p.toList.length :=
      List.length_take _ _
    have h3 : p.toList.length = p.length := rfl
    have h4 : ("_old" : String).length = 4 := rfl
    omega
  have h5 := pathStem_length_add_pathSuffix_length p
  omega

/-- The rotated name differs from the target path: its length is strictly
larger. -/
theorem withStem_old_ne (p : String) : withStem p (pathStem p ++ "_old") ≠ p := by
  intro h
  have hlen := congrArg String.length h
  rw [withStem_old_length] at hlen
  omega

/-- C9: when the output path already exists, `save_query_fields` first
renames the existing file by appending the fixed `_old` suffix to its
stem; a PermissionError on that rename propagates (fatally, after a
critical log, distinct from other failures) and leaves the filesystem,
the pre-existing file included, untouched; on a successful rename the old
content survives at the rotated name while the new artifact is written at
the target. -/
theorem save_query_fields_rotation (fs : FS) (target artifact old : String)
    (h : lookupA fs target = some old) :
    save_query_fields_fs fs target .permissionError artifact =
      (some PyErr.permissionError, fs)
  ∧ (save_query_fields_fs fs target .ok artifact).1 = none
  ∧ lookupA (save_query_fields_fs fs target .ok artifact).2 target = some artifact
  ∧ lookupA (save_query_fields_fs fs target .ok artifact).2
      (withStem target (pathStem target ++ "_old")) = some old := by
  refine ⟨?_, ?_, ?_, ?_⟩
  · simp [save_query_fields_fs, rotateExisting, h]
  · simp [save_query_fields_fs, rotateExisting, h]
  · simp only [save_query_fields_fs, rotateExisting, h]
    exact lookupA_setFile_self _ _ _
  · simp only [save_query_fields_fs, rotateExisting, h]
    rw [lookupA_setFile_ne _ _ _ _ (withStem_old_ne target)]
    exact lookupA_setFile_self _ _ _

/-- Evaluation of the C9 theorem: an existing `out.json` is rotated to
`out_old.json` on success, and a permission failure propagates leaving it
in place. -/
theorem save_query_fields_rotation_witness :
    save_query_fields_fs [("out.json", "old")] "out.json" .permissionError "new" =
      (some PyErr.permissionError, [("out.json", "old")])
  ∧ (save_query_fields_fs [("out.json", "old")] "out.json" .ok "new").1 = none
  ∧ lookupA (save_query_fields_fs [("out.json", "old")] "out.json" .ok "new").2
      "out.json" = some "new"
  ∧ lookupA (save_query_fields_fs [("out.json", "old")] "out.json" .ok "new").2
      (withStem "out.json" (pathStem "out.json" ++ "_old")) = some "old" :=
  save_query_fields_rotation [("out.json", "old")] "out.json" "new" "old" rfl

/-! ## Table alignment (C10) -/

theorem padTo_length (s : String) (w : Nat) (h : s.length ≤ w) :
    (padTo s w).length = w := by
  have h1 : (String.mk (List.replicate (w - s.length) ' ')).length = w - s.length := by
    show (List.replicate (w - s.length) ' ').length = _
    exact List.length_replicate _ _
  rw [padTo, String.length_append]
  omega

theorem foldl_append_length (l : List String) (acc : String) :
    (l.foldl (fun r s => r ++ s) acc).length = acc.length + (l.map String.length).sum := by
  induction l generalizing acc with
  | nil => simp
  | cons s rest ih =>
    simp only [List.foldl_cons, ih, String.length_append, List.map_cons, List.sum_cons]
    omega

theorem join_length (l : List String) :
    (String.join l).length = (l.map String.length).sum := by
  show (l.foldl (fun r s => r ++ s) "").length = _
  rw [foldl_append_length]
  simp

theorem foldr_max_le (l : List Nat) (a : Nat) (h : a ∈ l) : a ≤ l.foldr max 0 := by
  induction l with
  | nil => simp at h
  | cons b rest ih =>
    rcases List.mem_cons.1 h with h1 | h2
    · subst h1
      exact le_max_left _ _
    · exact le_trans (ih h2) (le_max_right _ _)

theorem value_le_colWidth (fields : List DRecord) (k : String) (f : DRecord)
    (hf : f ∈ fields) : ((lookupA f k).getD "").length ≤ colWidth fields k := by
  refine le_trans ?_ (le_max_left _ k.length)
  exact foldr_max_le _ _ (List.mem_map_of_mem (fun f => ((lookupA f k).getD "").length) hf)

theorem sum_map_cells (ks : List String) (cell : String → String) (w : String → Nat)
    (h : ∀ k ∈ ks, (cell k).length = w k + 1) :
    ((ks.map cell).map String.length).sum = (ks.map (fun k => w k + 1)).sum := by
  induction ks with
  | nil => simp
  | cons k rest ih =>
    simp only [List.map_cons, List.sum_cons]
    rw [h k (List.mem_cons_self k rest), ih (fun k2 hk2 => h k2 (List.mem_cons_of_mem k hk2))]

theorem headerLine_length (fields : List DRecord) (ks : List String) :
    (headerLine fields ks).length = (ks.map (fun k => colWidth fields k + 1)).sum := by
  rw [headerLine, join_length]
  refine sum_map_cells ks _ (colWidth fields) ?_
  intro k _
  rw [String.length_append, padTo_length k (colWidth fields k) (le_max_right _ _)]
  rfl

theorem rowSplitLine_length (fields : List DRecord) (ks : List String) :
    (rowSplitLine fields ks).length = (ks.map (fun k => colWidth fields k + 1)).sum := by
  rw [rowSplitLine, join_length]
  refine sum_map_cells ks _ (colWidth fields) ?_
  intro k _
  rw [String.length_append]
  have h1 : (String.mk (List.replicate (colWidth fields k) '-')).length =
      colWidth fields k := by
    show (List.replicate (colWidth fields k) '-').length = _
    exact List.length_replicate _ _
  rw [h1]
  rfl

theorem rowLine_length (fields : List DRecord) (ks : List String) (f : DRecord)
    (hf : f ∈ fields) :
    (rowLine fields ks f).length = (ks.map (fun k => colWidth fields k + 1)).sum := by
  rw [rowLine, join_length]
  refine sum_map_cells ks _ (colWidth fields) ?_
  intro k _
  rw [String.length_append, padTo_length _ _ (value_le_colWidth fields k f hf)]
  rfl

/-- C10: on a non-empty list of records each containing every key of the
first record, `format_dictionary` yields a header, a separator, and one
row per record whose rendered lengths are all equal — the sum over the
first-record keys of column width plus one separator bar, each column
width being the larger of the longest rendered value and the key name
length — and on the empty list it yields (None, None, [None]) without
raising. -/
theorem format_dictionary_aligned (f0 : DRecord) (rest : List DRecord)
    (hall : ∀ f ∈ f0 :: rest, ∀ k ∈ keysOf f0, (lookupA f k).isSome = true) :
    (∃ hdr sep rows,
      format_dictionary (f0 :: rest) = (some hdr, some sep, rows) ∧
      rows.length = (f0 :: rest).length ∧
      sep.length = hdr.length ∧
      (∀ r ∈ rows, ∃ s, r = some s ∧ s.length = hdr.length) ∧
      hdr.length =
        ((keysOf f0).map (fun k => colWidth (f0 :: rest) k + 1)).sum)
  ∧ format_dictionary [] = (none, none, [none]) := by
  refine ⟨⟨headerLine (f0 :: rest) (keysOf f0), rowSplitLine (f0 :: rest) (keysOf f0),
    (f0 :: rest).map (fun f => some (rowLine (f0 :: rest) (keysOf f0) f)),
    rfl, by simp, ?_, ?_, headerLine_length _ _⟩, rfl⟩
  · rw [rowSplitLine_length, headerLine_length]
  · intro r hr
    obtain ⟨f, hf, hfr⟩ := List.mem_map.1 hr
    exact ⟨rowLine (f0 :: rest) (keysOf f0) f, hfr.symm,
      by rw [rowLine_length _ _ _ hf, headerLine_length]⟩

/-- Evaluation of the C10 theorem on two records over the keys name and
type. -/
theorem format_dictionary_aligned_witness :
    (∃ hdr sep rows,
      format_dictionary [[("name", "x"), ("type", "t")],
        [("name", "longer"), ("type", "u")]] = (some hdr, some sep, rows) ∧
      rows.length = ([[("name", "x"), ("type", "t")],
        [("name", "longer"), ("type", "u")]] : List DRecord).length ∧
      sep.length = hdr.length ∧
      (∀ r ∈ rows, ∃ s, r = some s ∧ s.length = hdr.length) ∧
      hdr.length =
        ((keysOf ([("name", "x"), ("type", "t")] : DRecord)).map
          (fun k => colWidth [[("name", "x"), ("type", "t")],
            [("name", "longer"), ("type", "u")]] k + 1)).sum)
  ∧ format_dictionary [] = (none, none, [none]) :=
  format_dictionary_aligned [("name", "x"), ("type", "t")]
    [[("name", "longer"), ("type", "u")]] (by decide)

end Datawave
